import Mathlib

/-!
Verification of the delpha_proxy server (`delpha_proxy/server.py`).

Python strings are modelled as `List Char`, Python `bytes` as `List Nat`
(each element < 256).  Library calls (`hashlib.pbkdf2_hmac`,
`base64.b64decode(...).decode()`) are abstracted as function parameters;
their contracts appear as hypotheses of the theorems.  Fallible Python
operations (indexing, unpacking, `int()`, `bytes.fromhex`) are modelled
with `Option`, where `none` stands for a raised exception.
-/

/-- Python strings are lists of unicode scalar values. -/
abbrev Str := List Char

/-- Literal helper: a Lean string literal as a `Str`. -/
def str (s : String) : Str := s.toList

/-- Python slice `l[:i]`, including negative `i` (counted from the end, clamped). -/
def pyTakeInt (i : Int) (l : Str) : Str :=
  if i < 0 then l.take (l.length - (-i).toNat) else l.take i.toNat

/-- Python slice `l[i:]`, including negative `i` (counted from the end, clamped). -/
def pyDropInt (i : Int) (l : Str) : Str :=
  if i < 0 then l.drop (l.length - (-i).toNat) else l.drop i.toNat

/-- Accumulator worker for `pySplitChar`. -/
def splitChAux (c : Char) (acc : Str) : Str → List Str
  | [] => [acc.reverse]
  | x :: xs => if x = c then acc.reverse :: splitChAux c [] xs else splitChAux c (x :: acc) xs

/-- Python `s.split(sep)` for a one-character separator `sep`. -/
def pySplitChar (c : Char) (l : Str) : List Str := splitChAux c [] l

/-- Accumulator worker for `splitCRLF`. -/
def splitCRLFAux (acc : Str) : Str → List Str
  | [] => [acc.reverse]
  | '\r' :: '\n' :: xs => acc.reverse :: splitCRLFAux [] xs
  | x :: xs => splitCRLFAux (x :: acc) xs

/-- Python `s.split("\r\n")` (used on the request head in `_is_authenticated`). -/
def splitCRLF (l : Str) : List Str := splitCRLFAux [] l

/-- Worker for `pyFindSub`, carrying the current index. -/
def findSubAux (sub : Str) (i : Nat) : Str → Int
  | [] => if sub.isEmpty then (i : Int) else -1
  | x :: xs => if sub.isPrefixOf (x :: xs) then (i : Int) else findSubAux sub (i + 1) xs

/-- Python `s.find(sub)`: index of the first occurrence, or `-1`. -/
def pyFindSub (sub l : Str) : Int := findSubAux sub 0 l

/-- Python `sub in s`: contiguous-substring membership. -/
def pyContains (sub : Str) : Str → Bool
  | [] => sub.isEmpty
  | x :: xs => sub.isPrefixOf (x :: xs) || pyContains sub xs

/-- The whitespace characters stripped by Python `int()`. -/
def isPyWS (c : Char) : Bool :=
  c = ' ' || c = '\t' || c = '\n' || c = '\r' || c = Char.ofNat 11 || c = Char.ofNat 12

/-- Python `s.strip()` restricted to ASCII whitespace. -/
def pyStrip (l : Str) : Str :=
  ((l.dropWhile isPyWS).reverse.dropWhile isPyWS).reverse

/-- Decimal value of a digit string. -/
def digitsVal (l : Str) : Nat := l.foldl (fun a c => a * 10 + (c.toNat - 48)) 0

/-- Python `int(s)`: strips whitespace, accepts an optional sign and decimal
digits; `none` models the raised `ValueError`. -/
def pyInt (l : Str) : Option Int :=
  let t := pyStrip l
  if t.head? = some '-' then
    if t.tail ≠ [] ∧ t.tail.all Char.isDigit then some (-(digitsVal t.tail : Int)) else none
  else if t.head? = some '+' then
    if t.tail ≠ [] ∧ t.tail.all Char.isDigit then some ((digitsVal t.tail : Int)) else none
  else
    if t ≠ [] ∧ t.all Char.isDigit then some ((digitsVal t : Int)) else none

/-- Lowercase hex digit of a value < 16 (as produced by Python `bytes.hex()`). -/
def hexDigitChar (n : Nat) : Char :=
  if n < 10 then Char.ofNat (48 + n) else Char.ofNat (87 + n)

/-- Python `bytes.hex()`: two lowercase hex digits per byte. -/
def hexEncode (bs : List Nat) : Str :=
  (bs.map (fun b => [hexDigitChar (b / 16), hexDigitChar (b % 16)])).flatten

/-- Value of a hex digit character, or `none`. -/
def hexDigitVal (c : Char) : Option Nat :=
  if 48 ≤ c.toNat ∧ c.toNat ≤ 57 then some (c.toNat - 48)
  else if 97 ≤ c.toNat ∧ c.toNat ≤ 102 then some (c.toNat - 87)
  else if 65 ≤ c.toNat ∧ c.toNat ≤ 70 then some (c.toNat - 55)
  else none

/-- Python `bytes.fromhex(s)`; `none` models the raised `ValueError`. -/
def hexDecode : Str → Option (List Nat)
  | [] => some []
  | c1 :: c2 :: rest =>
    match hexDigitVal c1, hexDigitVal c2, hexDecode rest with
    | some v1, some v2, some r => some ((16 * v1 + v2) :: r)
    | _, _, _ => none
  | [_] => none

/-- The header-name substring searched for by `_is_authenticated`
(case-sensitively, as in the source). -/
def paHeader : Str := str "Proxy-Authorization"

/-- SQLite lookup `SELECT password FROM users WHERE username = ?`
(usernames are a primary key, modelled as an association list). -/
def lookupDb (db : List (Str × Str)) (u : Str) : Option Str :=
  match db.find? (fun e => e.1 == u) with
  | some e => some e.2
  | none => none

/-- Model of `ProxyServer._authenticate_user`: look the user up, take the trailing 32
hex chars of the stored credential as the salt, re-hash the supplied password
with it and compare with the leading part.  `kdf` abstracts
`hashlib.pbkdf2_hmac("sha256", password.encode(), salt, 100000)`.
`none` models a raised exception (from `bytes.fromhex`). -/
def authenticateUser (kdf : Str → List Nat → List Nat) (db : List (Str × Str))
    (u p : Str) : Option Bool :=
  match lookupDb db u with
  | none => some false
  | some stored =>
    match hexDecode (pyDropInt (-32) stored) with
    | none => none
    | some salt => some (pyTakeInt (-32) stored == hexEncode (kdf p salt))

/-- Model of `ProxyServer._is_authenticated`: `b64` abstracts
`fun x => (base64.b64decode x).decode()` (with `none` for a raised
exception), `kdf` abstracts the PBKDF2 call.  The result `none` models an
exception escaping `_is_authenticated` (from unpacking `split` results or
from decoding). -/
def isAuthenticated (b64 : Str → Option Str) (kdf : Str → List Nat → List Nat)
    (auth : Bool) (db : List (Str × Str)) (head : Str) : Option Bool :=
  if auth = false then some true
  else if pyContains paHeader head then
    match (splitCRLF head).find? (fun line => pyContains paHeader line) with
    | none => some false
    | some line =>
      match (pySplitChar ' ' line).drop 1 with
      | [t, c] =>
        if t.map Char.toLower == str "basic" then
          match b64 c with
          | none => none
          | some dec =>
            match pySplitChar ':' dec with
            | [u, p] => authenticateUser kdf db u p
            | _ => none
        else some false
      | _ => none
  else some false

/-- Model of `ProxyServer._hash_password` with an explicitly supplied salt:
returns `(pwdhash.hex(), salt)`. -/
def hashPassword (kdf : Str → List Nat → List Nat) (p : Str) (salt : List Nat) :
    Str × List Nat :=
  (hexEncode (kdf p salt), salt)

/-- Model of `ProxyServer.add_user`: hash with a fresh salt (passed as a parameter,
modelling `os.urandom(16)`), store `password_hash + salt.hex()`; a duplicate
username raises `sqlite3.IntegrityError` and leaves the table unchanged. -/
def addUser (kdf : Str → List Nat → List Nat) (db : List (Str × Str))
    (u p : Str) (salt : List Nat) : List (Str × Str) :=
  match lookupDb db u with
  | some _ => db
  | none => db ++ [(u, (hashPassword kdf p salt).1 ++ hexEncode salt)]

/-- Lower bound for the first continuation byte of a 3-byte sequence. -/
def cont3lo (b : Nat) : Nat := if b = 224 then 160 else 128

/-- Upper bound for the first continuation byte of a 3-byte sequence
(excludes surrogates). -/
def cont3hi (b : Nat) : Nat := if b = 237 then 159 else 191

/-- Lower bound for the first continuation byte of a 4-byte sequence. -/
def cont4lo (b : Nat) : Nat := if b = 240 then 144 else 128

/-- Upper bound for the first continuation byte of a 4-byte sequence
(excludes code points above U+10FFFF). -/
def cont4hi (b : Nat) : Nat := if b = 244 then 143 else 191

/-- One step of the UTF-8 decoder: the characters emitted for the first
byte sequence (possibly none, when the byte is undecodable and dropped)
and the remaining input. -/
def utf8Step (b : Nat) (bs : List Nat) : List Char × List Nat :=
  if b < 128 then ([Char.ofNat b], bs)
  else if 194 ≤ b ∧ b ≤ 223 then
    match bs with
    | b1 :: rest =>
      if 128 ≤ b1 ∧ b1 ≤ 191 then ([Char.ofNat ((b - 192) * 64 + (b1 - 128))], rest)
      else ([], b1 :: rest)
    | [] => ([], [])
  else if 224 ≤ b ∧ b ≤ 239 then
    match bs with
    | b1 :: b2 :: rest =>
      if (cont3lo b ≤ b1 ∧ b1 ≤ cont3hi b) ∧ (128 ≤ b2 ∧ b2 ≤ 191) then
        ([Char.ofNat ((b - 224) * 4096 + (b1 - 128) * 64 + (b2 - 128))], rest)
      else ([], b1 :: b2 :: rest)
    | bs' => ([], bs')
  else if 240 ≤ b ∧ b ≤ 244 then
    match bs with
    | b1 :: b2 :: b3 :: rest =>
      if (cont4lo b ≤ b1 ∧ b1 ≤ cont4hi b) ∧ (128 ≤ b2 ∧ b2 ≤ 191) ∧ (128 ≤ b3 ∧ b3 ≤ 191) then
        ([Char.ofNat ((b - 240) * 262144 + (b1 - 128) * 4096 + (b2 - 128) * 64 + (b3 - 128))],
         rest)
      else ([], b1 :: b2 :: b3 :: rest)
    | bs' => ([], bs')
  else ([], bs)

/-- Fuel-indexed worker for `utf8DecodeIgnore` (each step consumes at least
one byte, so fuel = input length suffices). -/
def utf8DecodeIgnoreFuel : Nat → List Nat → List Char
  | 0, _ => []
  | _, [] => []
  | fuel + 1, b :: bs => (utf8Step b bs).1 ++ utf8DecodeIgnoreFuel fuel (utf8Step b bs).2

/-- Python `bytes.decode(errors="ignore")`: strict UTF-8 decoding that drops
undecodable bytes.  Invalid bytes are skipped one at a time, which produces
the same output as CPython's maximal-subpart skipping because every byte of
a rejected subpart is itself rejected when re-examined. -/
def utf8DecodeIgnore (bs : List Nat) : List Char := utf8DecodeIgnoreFuel bs.length bs

/-- UTF-8 encoding of a single unicode scalar value (Python `str.encode()`
for one character). -/
def utf8Encode1 (c : Char) : List Nat :=
  let n := c.toNat
  if n < 128 then [n]
  else if n < 2048 then [192 + n / 64, 128 + n % 64]
  else if n < 65536 then [224 + n / 4096, 128 + n / 64 % 64, 128 + n % 64]
  else [240 + n / 262144, 128 + n / 4096 % 64, 128 + n / 64 % 64, 128 + n % 64]

/-- Python `str.encode()` (UTF-8). -/
def utf8Encode (cs : Str) : List Nat := (cs.map utf8Encode1).flatten

/-- Socket effects performed by a connection handler, in program order. -/
inductive Eff where
  | sendClient (bs : List Nat)
  | sendOrigin (bs : List Nat)
  | connectOrigin (host : Str) (port : Int)
  | closeClient
  | closeOrigin
deriving DecidableEq

/-- One iteration of `_tunnel_data`'s `select` loop: which sockets were
readable (`none` = not readable, `some []` = readable with EOF, `some d` =
readable with data `d`) and whether `select` reported an error socket. -/
structure TunnelEv where
  err : Bool
  cChunk : Option (List Nat)
  sChunk : Option (List Nat)
deriving DecidableEq

/-- The bytes forwarded during one loop iteration: client data to the origin
first, then origin data to the client (the `for` loop visits the client
socket first). -/
def tunnelStepEffs (e : TunnelEv) : List Eff :=
  (match e.cChunk with
   | some d => if d.length > 0 then [Eff.sendOrigin d] else []
   | none => []) ++
  (match e.sChunk with
   | some d => if d.length > 0 then [Eff.sendClient d] else []
   | none => [])

/-- Value of `keep_alive` after one iteration: false once an error socket is reported
or either `recv` returned zero bytes. -/
def tunnelAlive (e : TunnelEv) : Bool :=
  !e.err && e.cChunk != some [] && e.sChunk != some []

/-- Model of `ProxyServer._tunnel_data` over a sequence of `select` results.  Data of
the current iteration is always forwarded (the loop body completes even when
`keep_alive` was just cleared); further iterations happen only while
`keep_alive` holds. -/
def tunnelEffs : List TunnelEv → List Eff
  | [] => []
  | e :: es => tunnelStepEffs e ++ (if tunnelAlive e then tunnelEffs es else [])

/-- The fixed CONNECT success response sent by `_handle_https`. -/
def connectMsg : List Nat := utf8Encode (str "HTTP/1.1 200 Connection Established\r\n\r\n")

/-- The fixed 407 challenge sent by `_request_authentication`. -/
def msg407 : List Nat :=
  utf8Encode (str "HTTP/1.1 407 Proxy Authentication Required\r\nProxy-Authenticate: Basic realm=\"Proxy\"\r\n\r\n")

/-- The target parsing of `_handle_https`:
`request_header.split(" ")[1].split(":")` → host and decimal port; `none`
models a raised `IndexError`/`ValueError`. -/
def connectTarget (head : Str) : Option (Str × Int) :=
  match (pySplitChar ' ' head).get? 1 with
  | none => none
  | some tgt =>
    match (pySplitChar ':' tgt).get? 1 with
    | none => none
    | some ps =>
      match pyInt ps with
      | none => none
      | some port => some ((pySplitChar ':' tgt).headD [], port)

/-- The URL dissection of `_handle_http` (lines 184–197): strip a
`scheme://` prefix, then split host and port on `:`, with Python's
negative-index slicing semantics.  `none` models a raised `ValueError`
from `int()`. -/
def parseUrl (url : Str) : Option (Str × Int) :=
  let httpPos := pyFindSub (str "://") url
  let temp := if httpPos = -1 then url else pyDropInt (httpPos + 3) url
  let portPos := pyFindSub (str ":") temp
  if portPos = -1 then
    some (pyTakeInt (pyFindSub (str "/") temp) temp, 80)
  else
    match pyInt (pyTakeInt (pyFindSub (str "/") (pyDropInt (portPos + 1) temp))
                   (pyDropInt (portPos + 1) temp)) with
    | none => none
    | some port => some (pyTakeInt portPos temp, port)

/-- The target parsing of `_handle_http` (lines 182–197): first line, second
space-separated token, then `parseUrl`.  `none` models a raised
`IndexError`/`ValueError`. -/
def parseHttpTarget (head : Str) : Option (Str × Int) :=
  match (pySplitChar ' ' ((pySplitChar '\n' head).headD [])).get? 1 with
  | none => none
  | some url => parseUrl url

/-- The response relay loop of `_handle_http`: forward each `recv` result to
the client until a zero-byte read. -/
def httpRelay : List (List Nat) → List Eff
  | [] => []
  | d :: ds => if d.length > 0 then Eff.sendClient d :: httpRelay ds else []

/-- Model of `ProxyServer._handle_http`: parse the target, connect, forward the
re-encoded head verbatim, relay the response, close the origin socket.
A parse failure raises before any socket operation; a connect failure is
caught (`except socket.error`) after the connect attempt, leaving the
origin socket unclosed. -/
def handleHttp (head : Str) (connectOk : Bool) (chunks : List (List Nat)) : List Eff :=
  match parseHttpTarget head with
  | none => []
  | some (server, port) =>
    if connectOk then
      Eff.connectOrigin server port :: Eff.sendOrigin (utf8Encode head) ::
        (httpRelay chunks ++ [Eff.closeOrigin])
    else [Eff.connectOrigin server port]

/-- Model of `ProxyServer._handle_https`: parse `host:port`, connect, send the 200
response, tunnel.  Its `except` clauses close the client socket; note that
no branch closes the origin socket. -/
def handleHttps (head : Str) (connectOk : Bool) (evs : List TunnelEv) : List Eff :=
  match connectTarget head with
  | none => [Eff.closeClient]
  | some (target, port) =>
    if connectOk then
      Eff.connectOrigin target port :: Eff.sendClient connectMsg :: tunnelEffs evs
    else
      [Eff.connectOrigin target port, Eff.closeClient]

/-- The per-connection environment: the bytes returned by the initial
`recv(1024)`, whether the origin `connect` succeeds, and the origin /
`select` activity for the two handler kinds. -/
structure ConnEnv where
  received : List Nat
  connectOk : Bool
  httpChunks : List (List Nat)
  tunnelEvs : List TunnelEv

/-- Model of `ProxyServer._process_client_request`: decode the head with
`errors="ignore"`, authenticate, route on the `CONNECT` prefix, send the 407
challenge on an authentication denial; any exception is caught, and the
`finally` block closes the client socket on every path. -/
def processClientRequest (b64 : Str → Option Str) (kdf : Str → List Nat → List Nat)
    (auth : Bool) (db : List (Str × Str)) (env : ConnEnv) : List Eff :=
  let head := utf8DecodeIgnore env.received
  (match isAuthenticated b64 kdf auth db head with
   | some true =>
     if (str "CONNECT").isPrefixOf head then handleHttps head env.connectOk env.tunnelEvs
     else handleHttp head env.connectOk env.httpChunks
   | some false => [Eff.sendClient msg407]
   | none => []) ++ [Eff.closeClient]

/-- All bytes a trace writes to the origin, in order. -/
def originBytes (l : List Eff) : List Nat :=
  (l.map fun e => match e with | Eff.sendOrigin d => d | _ => []).flatten

/-- All bytes a trace writes to the client, in order. -/
def clientBytes (l : List Eff) : List Nat :=
  (l.map fun e => match e with | Eff.sendClient d => d | _ => []).flatten

/-- The client-side payload of a tunnel iteration (empty when unreadable). -/
def cData (e : TunnelEv) : List Nat := match e.cChunk with | some d => d | none => []

/-- The origin-side payload of a tunnel iteration (empty when unreadable). -/
def sData (e : TunnelEv) : List Nat := match e.sChunk with | some d => d | none => []

/-- Concrete instantiation of the `b64` parameter used for closed
evaluations: a decoder for which every credential string decodes to itself
(it satisfies the round-trip contract of the base64 library together with
the identity as encoder). -/
def b64toy : Str → Option Str := fun s => some s

/-- Concrete instantiation of the `kdf` parameter used for closed
evaluations: a deterministic function separating the password `s3cret`
from every other password. -/
def kdftoy : Str → List Nat → List Nat :=
  fun p _ => if p = str "s3cret" then List.replicate 32 0 else List.replicate 32 1

/-- A concrete 16-byte salt (modelling one possible `os.urandom(16)` draw). -/
def salt0 : List Nat := List.replicate 16 0

/-- The user table after `add_user("alice", "s3cret")` with salt `salt0`. -/
def dbtoy : List (Str × Str) := addUser kdftoy [] (str "alice") (str "s3cret") salt0

/-- Received bytes of a well-formed CONNECT request head. -/
def connBytes : List Nat := utf8Encode (str "CONNECT t:443 HTTP/1.1\r\n\r\n")

/-- A tunnel iteration in which the client socket reports EOF. -/
def eofEv : TunnelEv := { err := false, cChunk := some [], sChunk := none }

/-- A live tunnel iteration with client data `[1, 2]` and origin data `[7]`. -/
def tev1 : TunnelEv := { err := false, cChunk := some [1, 2], sChunk := some [7] }

/-- Splitting a separator-free string is the identity (worker form). -/
theorem splitChAux_of_not_mem (c : Char) (l : Str) (h : c ∉ l) :
    ∀ acc, splitChAux c acc l = [acc.reverse ++ l] := by
  induction l with
  | nil => intro acc; simp [splitChAux]
  | cons x xs ih =>
    intro acc
    have hx : x ≠ c := fun hx => h (hx ▸ List.mem_cons_self x xs)
    have hxs : c ∉ xs := fun hm => h (List.mem_cons_of_mem x hm)
    simp only [splitChAux, if_neg hx, ih hxs]
    simp

/-- Splitting past a separator-free chunk produces that chunk (worker form). -/
theorem splitChAux_append (c : Char) (a : Str) (h : c ∉ a) :
    ∀ acc b, splitChAux c acc (a ++ c :: b) = (acc.reverse ++ a) :: splitChAux c [] b := by
  induction a with
  | nil => intro acc b; simp [splitChAux]
  | cons x xs ih =>
    intro acc b
    have hx : x ≠ c := fun hx => h (hx ▸ List.mem_cons_self x xs)
    have hxs : c ∉ xs := fun hm => h (List.mem_cons_of_mem x hm)
    simp only [List.cons_append, splitChAux, List.append_eq, if_neg hx, ih hxs]
    simp [List.append_assoc]

/-- Python `split` on a string not containing the separator. -/
theorem pySplitChar_of_not_mem (c : Char) (l : Str) (h : c ∉ l) :
    pySplitChar c l = [l] := by
  simpa using splitChAux_of_not_mem c l h []

/-- Python `split` peels off the first separator-free chunk. -/
theorem pySplitChar_append (c : Char) (a b : Str) (h : c ∉ a) :
    pySplitChar c (a ++ c :: b) = a :: pySplitChar c b := by
  simpa [pySplitChar] using splitChAux_append c a h [] b

/-- Searching for a pattern whose first character never occurs fails. -/
theorem findSubAux_head_not_mem (c : Char) (s : Str) (l : Str) (h : c ∉ l) :
    ∀ i, findSubAux (c :: s) i l = -1 := by
  induction l with
  | nil => intro i; simp [findSubAux]
  | cons x xs ih =>
    intro i
    have hx : x ≠ c := fun hx => h (hx ▸ List.mem_cons_self x xs)
    have hxs : c ∉ xs := fun hm => h (List.mem_cons_of_mem x hm)
    have hp : (c :: s).isPrefixOf (x :: xs) = false := by
      simp [List.isPrefixOf]
      intro hc
      exact absurd hc.symm hx
    simp only [findSubAux, hp, Bool.false_eq_true, if_false, ih hxs]

/-- Python `find` of a single character just past a chunk free of it. -/
theorem findSubAux_single_append (c : Char) (a b : Str) (h : c ∉ a) :
    ∀ i, findSubAux [c] i (a ++ c :: b) = (i : Int) + a.length := by
  induction a with
  | nil =>
    intro i
    simp [findSubAux, List.isPrefixOf]
  | cons x xs ih =>
    intro i
    have hx : x ≠ c := fun hx => h (hx ▸ List.mem_cons_self x xs)
    have hxs : c ∉ xs := fun hm => h (List.mem_cons_of_mem x hm)
    have hp : ([c]).isPrefixOf (x :: (xs ++ c :: b)) = false := by
      simp [List.isPrefixOf]
      exact fun hc => absurd hc.symm hx
    simp only [List.cons_append, findSubAux, List.append_eq, hp, Bool.false_eq_true, if_false,
      ih hxs]
    simp only [List.length_cons]
    omega

/-- Python `find` of a single missing character returns `-1`. -/
theorem pyFindSub_single_not_mem (c : Char) (l : Str) (h : c ∉ l) :
    pyFindSub [c] l = -1 :=
  findSubAux_head_not_mem c [] l h 0

/-- Python `find` of a single character returns the first occurrence. -/
theorem pyFindSub_single_append (c : Char) (a b : Str) (h : c ∉ a) :
    pyFindSub [c] (a ++ c :: b) = a.length := by
  simpa using findSubAux_single_append c a b h 0

/-- Lowercase hex digits decode back to their value. -/
theorem hexDigitVal_hexDigitChar (n : Nat) (h : n < 16) :
    hexDigitVal (hexDigitChar n) = some n := by
  interval_cases n <;> decide

/-- Unfolding lemma: hex encoding of a cons. -/
theorem hexEncode_cons (b : Nat) (bs : List Nat) :
    hexEncode (b :: bs) = hexDigitChar (b / 16) :: hexDigitChar (b % 16) :: hexEncode bs := by
  simp [hexEncode]

/-- Hex encoding distributes over append. -/
theorem hexEncode_append (a b : List Nat) :
    hexEncode (a ++ b) = hexEncode a ++ hexEncode b := by
  simp [hexEncode]

/-- Hex encoding doubles the length. -/
theorem hexEncode_length (bs : List Nat) : (hexEncode bs).length = 2 * bs.length := by
  induction bs with
  | nil => rfl
  | cons b bs ih => rw [hexEncode_cons]; simp [ih]; omega

/-- Decoding inverts encoding of genuine byte values. -/
theorem hexDecode_hexEncode (bs : List Nat) (h : ∀ b ∈ bs, b < 256) :
    hexDecode (hexEncode bs) = some bs := by
  induction bs with
  | nil => rfl
  | cons b bs ih =>
    have hb : b < 256 := h b (List.mem_cons_self b bs)
    have h1 : b / 16 < 16 := by omega
    have h2 : b % 16 < 16 := by omega
    rw [hexEncode_cons]
    simp only [hexDecode]
    rw [hexDigitVal_hexDigitChar _ h1, hexDigitVal_hexDigitChar _ h2,
      ih (fun x hx => h x (List.mem_cons_of_mem b hx))]
    have : 16 * (b / 16) + b % 16 = b := by omega
    simp [this]

/-- Hex encoding is injective on byte lists. -/
theorem hexEncode_inj (a b : List Nat) (ha : ∀ x ∈ a, x < 256) (hb : ∀ x ∈ b, x < 256)
    (h : hexEncode a = hexEncode b) : a = b := by
  have := hexDecode_hexEncode a ha
  rw [h, hexDecode_hexEncode b hb] at this
  exact (Option.some_injective _ this).symm

/-- Every character of a hex encoding is a lowercase hex digit. -/
theorem hexEncode_lower (bs : List Nat) (h : ∀ b ∈ bs, b < 256) :
    ∀ c ∈ hexEncode bs, c.isDigit = true ∨ ('a' ≤ c ∧ c ≤ 'f') := by
  induction bs with
  | nil => simp [hexEncode]
  | cons b bs ih =>
    have hb : b < 256 := h b (List.mem_cons_self b bs)
    rw [hexEncode_cons]
    intro c hc
    have hdig : ∀ n : Nat, n < 16 → (hexDigitChar n).isDigit = true ∨
        ('a' ≤ hexDigitChar n ∧ hexDigitChar n ≤ 'f') := by
      intro n hn
      interval_cases n <;> decide
    simp only [List.mem_cons] at hc
    rcases hc with hc | hc | hc
    · exact hc ▸ hdig (b / 16) (by omega)
    · exact hc ▸ hdig (b % 16) (by omega)
    · exact ih (fun x hx => h x (List.mem_cons_of_mem b hx)) c hc

/-- Python slice `s[:-32]` of a credential `hash ++ salt_hex` with a 32-char
salt part recovers the hash part. -/
theorem pyTakeInt_neg32 (H S : Str) (h : S.length = 32) : pyTakeInt (-32) (H ++ S) = H := by
  simp only [pyTakeInt, if_pos (by norm_num : (-32 : Int) < 0)]
  norm_num
  have h2 : H.length + S.length - Int.toNat 32 = H.length := by simp [h]
  rw [h2, List.take_left]

/-- Python slice `s[-32:]` of a credential `hash ++ salt_hex` with a 32-char
salt part recovers the salt part. -/
theorem pyDropInt_neg32 (H S : Str) (h : S.length = 32) : pyDropInt (-32) (H ++ S) = S := by
  simp only [pyDropInt, if_pos (by norm_num : (-32 : Int) < 0)]
  norm_num
  have h2 : H.length + S.length - Int.toNat 32 = H.length := by simp [h]
  rw [h2, List.drop_left]

/-- Lookup-and-compare behaviour of `_authenticate_user` on a credential in
the storage format `hash_hex ++ salt_hex`. -/
theorem authenticateUser_stored (kdf : Str → List Nat → List Nat) (db : List (Str × Str))
    (U q P : Str) (salt : List Nat)
    (hdb : lookupDb db U = some (hexEncode (kdf P salt) ++ hexEncode salt))
    (hsLen : salt.length = 16) (hsB : ∀ b ∈ salt, b < 256) :
    authenticateUser kdf db U q
      = some (hexEncode (kdf P salt) == hexEncode (kdf q salt)) := by
  have hlen : (hexEncode salt).length = 32 := by rw [hexEncode_length, hsLen]
  simp only [authenticateUser, hdb]
  rw [pyDropInt_neg32 _ _ hlen, hexDecode_hexEncode _ hsB, pyTakeInt_neg32 _ _ hlen]

/-- Reduction of `_is_authenticated` on a head whose located header line is
a well-formed `Proxy-Authorization: Basic <creds>` line. -/
theorem isAuthenticated_basic (b64 : Str → Option Str) (kdf : Str → List Nat → List Nat)
    (db : List (Str × Str)) (head creds U P : Str)
    (hin : pyContains paHeader head = true)
    (hline : (splitCRLF head).find? (fun line => pyContains paHeader line)
        = some (str "Proxy-Authorization:" ++ ' ' :: (str "Basic" ++ ' ' :: creds)))
    (hsp : ' ' ∉ creds)
    (hdec : b64 creds = some (U ++ ':' :: P))
    (hU : ':' ∉ U) (hP : ':' ∉ P) :
    isAuthenticated b64 kdf true db head = authenticateUser kdf db U P := by
  have hA : ' ' ∉ str "Proxy-Authorization:" := by decide
  have hB : ' ' ∉ str "Basic" := by decide
  have hsplit : pySplitChar ' ' (str "Proxy-Authorization:" ++ ' ' :: (str "Basic" ++ ' ' :: creds))
      = [str "Proxy-Authorization:", str "Basic", creds] := by
    rw [pySplitChar_append _ _ _ hA, pySplitChar_append _ _ _ hB,
      pySplitChar_of_not_mem _ _ hsp]
  have hcsplit : pySplitChar ':' (U ++ ':' :: P) = [U, P] := by
    rw [pySplitChar_append _ _ _ hU, pySplitChar_of_not_mem _ _ hP]
  have hlower : (str "Basic").map Char.toLower = str "basic" := by decide
  simp only [isAuthenticated, hin, hline, hsplit]
  simp [hlower, hdec, hcsplit]

theorem adduser_authorize_allow_deny
    (b64 : Str → Option Str) (kdf : Str → List Nat → List Nat) (db : List (Str × Str))
    (U P P' : Str) (salt : List Nat) (credsP credsP' head head' : Str)
    (hsLen : salt.length = 16) (hsB : ∀ b ∈ salt, b < 256)
    (hkPB : ∀ b ∈ kdf P salt, b < 256) (hkP'B : ∀ b ∈ kdf P' salt, b < 256)
    (hdb : lookupDb db U = some (hexEncode (kdf P salt) ++ hexEncode salt))
    (hin : pyContains paHeader head = true)
    (hline : (splitCRLF head).find? (fun line => pyContains paHeader line)
        = some (str "Proxy-Authorization:" ++ ' ' :: (str "Basic" ++ ' ' :: credsP)))
    (hin' : pyContains paHeader head' = true)
    (hline' : (splitCRLF head').find? (fun line => pyContains paHeader line)
        = some (str "Proxy-Authorization:" ++ ' ' :: (str "Basic" ++ ' ' :: credsP')))
    (hspP : ' ' ∉ credsP) (hspP' : ' ' ∉ credsP')
    (hdecP : b64 credsP = some (U ++ ':' :: P))
    (hdecP' : b64 credsP' = some (U ++ ':' :: P'))
    (hU : ':' ∉ U) (hP : ':' ∉ P) (hP' : ':' ∉ P')
    (hcoll : kdf P' salt ≠ kdf P salt) :
    isAuthenticated b64 kdf true db head = some true ∧
    isAuthenticated b64 kdf true db head' = some false := by
  constructor
  · rw [isAuthenticated_basic b64 kdf db head credsP U P hin hline hspP hdecP hU hP,
      authenticateUser_stored kdf db U P P salt hdb hsLen hsB]
    simp
  · rw [isAuthenticated_basic b64 kdf db head' credsP' U P' hin' hline' hspP' hdecP' hU hP',
      authenticateUser_stored kdf db U P' P salt hdb hsLen hsB]
    have hne : hexEncode (kdf P salt) ≠ hexEncode (kdf P' salt) := by
      intro h
      exact hcoll (hexEncode_inj _ _ hkP'B hkPB h.symm)
    simp [hne]

theorem adduser_authorize_colon_cx :
    str "a:b" ≠ str "s3cret" ∧
    isAuthenticated b64toy kdftoy true dbtoy
      (str "CONNECT t:443 HTTP/1.1\r\nProxy-Authorization: Basic alice:a:b\r\n\r\n") = none :=
  ⟨by decide, rfl⟩

theorem adduser_authorize_allow_deny_witness :
    isAuthenticated b64toy kdftoy true dbtoy
      (str "CONNECT t:443 HTTP/1.1\r\nProxy-Authorization: Basic alice:s3cret\r\n\r\n")
      = some true ∧
    isAuthenticated b64toy kdftoy true dbtoy
      (str "CONNECT t:443 HTTP/1.1\r\nProxy-Authorization: Basic alice:wrong\r\n\r\n")
      = some false :=
  adduser_authorize_allow_deny b64toy kdftoy dbtoy
    (str "alice") (str "s3cret") (str "wrong") salt0
    (str "alice:s3cret") (str "alice:wrong")
    (str "CONNECT t:443 HTTP/1.1\r\nProxy-Authorization: Basic alice:s3cret\r\n\r\n")
    (str "CONNECT t:443 HTTP/1.1\r\nProxy-Authorization: Basic alice:wrong\r\n\r\n")
    (by decide) (by decide) (by decide) (by decide) rfl
    (by decide) (by decide) (by decide) (by decide)
    (by decide) (by decide) rfl rfl
    (by decide) (by decide) (by decide) (by decide)

/-- Claim C8 (amended): with authentication enabled, `_is_authenticated`
searches the head for the substring `Proxy-Authorization` case-sensitively
(not case-insensitively — see the counterexample), and any head without
that exact substring is denied. -/
theorem authorize_denies_absent_header (b64 : Str → Option Str)
    (kdf : Str → List Nat → List Nat) (db : List (Str × Str)) (head : Str)
    (h : pyContains paHeader head = false) :
    isAuthenticated b64 kdf true db head = some false := by
  simp [isAuthenticated, h]

theorem pa_case_sensitive_cx :
    isAuthenticated b64toy kdftoy true dbtoy
      (str "CONNECT t:443 HTTP/1.1\r\nproxy-authorization: Basic alice:s3cret\r\n\r\n")
      = some false ∧
    isAuthenticated b64toy kdftoy true dbtoy
      (str "CONNECT t:443 HTTP/1.1\r\nProxy-Authorization: Basic alice:s3cret\r\n\r\n")
      = some true :=
  ⟨rfl, rfl⟩

theorem authorize_denies_absent_header_witness :
    isAuthenticated b64toy kdftoy true dbtoy (str "GET / HTTP/1.1\r\n\r\n") = some false :=
  authorize_denies_absent_header b64toy kdftoy dbtoy (str "GET / HTTP/1.1\r\n\r\n") (by decide)

/-- Claim C9: with authentication disabled, authorization allows every
request head, and both the authorization result and the full connection
trace are independent of the credential database — the store is never
consulted. -/
theorem auth_disabled_no_store_access (b64 : Str → Option Str)
    (kdf : Str → List Nat → List Nat) (db db' : List (Str × Str)) (head : Str)
    (env : ConnEnv) :
    isAuthenticated b64 kdf false db head = some true ∧
    isAuthenticated b64 kdf false db head = isAuthenticated b64 kdf false db' head ∧
    processClientRequest b64 kdf false db env = processClientRequest b64 kdf false db' env := by
  refine ⟨by simp [isAuthenticated], by simp [isAuthenticated], ?_⟩
  simp [processClientRequest, isAuthenticated]

/-- Claim C7: a credential stored by `add_user` is exactly
`hex(pbkdf2(password, salt)) ++ hex(salt)`: 96 lowercase hex characters in
total, a 64-char hash part and a 32-char salt suffix that parses back to
the 16-byte salt; the derivation is a function of `(password, salt)` and
hence deterministic.  The hypotheses on `kdf` are the `hashlib` contract
(32-byte output). -/
theorem stored_credential_format (kdf : Str → List Nat → List Nat) (db : List (Str × Str))
    (u p : Str) (salt : List Nat)
    (hsLen : salt.length = 16) (hsB : ∀ b ∈ salt, b < 256)
    (hkLen : (kdf p salt).length = 32) (hkB : ∀ b ∈ kdf p salt, b < 256)
    (hfree : lookupDb db u = none) :
    addUser kdf db u p salt = db ++ [(u, (hashPassword kdf p salt).1 ++ hexEncode salt)] ∧
    ((hashPassword kdf p salt).1 ++ hexEncode salt).length = 96 ∧
    (∀ c ∈ (hashPassword kdf p salt).1 ++ hexEncode salt,
      c.isDigit = true ∨ ('a' ≤ c ∧ c ≤ 'f')) ∧
    (hashPassword kdf p salt).1.length = 64 ∧
    pyDropInt (-32) ((hashPassword kdf p salt).1 ++ hexEncode salt) = hexEncode salt ∧
    hexDecode (pyDropInt (-32) ((hashPassword kdf p salt).1 ++ hexEncode salt)) = some salt := by
  have hsaltLen : (hexEncode salt).length = 32 := by rw [hexEncode_length, hsLen]
  have hhashLen : (hashPassword kdf p salt).1.length = 64 := by
    simp only [hashPassword]
    rw [hexEncode_length, hkLen]
  refine ⟨?_, ?_, ?_, hhashLen, ?_, ?_⟩
  · simp [addUser, hfree]
  · simp [List.length_append, hhashLen, hsaltLen]
  · intro c hc
    rcases List.mem_append.mp hc with hc | hc
    · exact hexEncode_lower _ hkB c hc
    · exact hexEncode_lower _ hsB c hc
  · exact pyDropInt_neg32 _ _ hsaltLen
  · rw [pyDropInt_neg32 _ _ hsaltLen]
    exact hexDecode_hexEncode _ hsB

theorem stored_credential_format_witness :
    addUser kdftoy [] (str "bob") (str "pw") salt0
      = [] ++ [((str "bob"), (hashPassword kdftoy (str "pw") salt0).1 ++ hexEncode salt0)] ∧
    ((hashPassword kdftoy (str "pw") salt0).1 ++ hexEncode salt0).length = 96 ∧
    (∀ c ∈ (hashPassword kdftoy (str "pw") salt0).1 ++ hexEncode salt0,
      c.isDigit = true ∨ ('a' ≤ c ∧ c ≤ 'f')) ∧
    (hashPassword kdftoy (str "pw") salt0).1.length = 64 ∧
    pyDropInt (-32) ((hashPassword kdftoy (str "pw") salt0).1 ++ hexEncode salt0)
      = hexEncode salt0 ∧
    hexDecode (pyDropInt (-32) ((hashPassword kdftoy (str "pw") salt0).1 ++ hexEncode salt0))
      = some salt0 :=
  stored_credential_format kdftoy [] (str "bob") (str "pw") salt0
    (by decide) (by decide) (by decide) (by decide) rfl

/-- Claim C4 (amended): when authorization returns deny (`some false`) the
dispatcher sends the 407 challenge exactly once and then closes the client
socket; an unknown username yields deny; but when authorization raises
(`none`, e.g. a credential decoding/splitting failure, see the
counterexample) the dispatcher closes the connection without sending 407. -/
theorem auth_failure_dispatch (b64 : Str → Option Str) (kdf : Str → List Nat → List Nat)
    (db : List (Str × Str)) (env : ConnEnv) (u p : Str) :
    (isAuthenticated b64 kdf true db (utf8DecodeIgnore env.received) = some false →
      processClientRequest b64 kdf true db env = [Eff.sendClient msg407, Eff.closeClient]) ∧
    (isAuthenticated b64 kdf true db (utf8DecodeIgnore env.received) = none →
      processClientRequest b64 kdf true db env = [Eff.closeClient]) ∧
    (lookupDb db u = none → authenticateUser kdf db u p = some false) := by
  refine ⟨?_, ?_, ?_⟩
  · intro h
    simp [processClientRequest, h]
  · intro h
    simp [processClientRequest, h]
  · intro h
    simp [authenticateUser, h]

theorem auth_split_raise_cx :
    isAuthenticated b64toy kdftoy true dbtoy
      (str "CONNECT t:443 HTTP/1.1\r\nProxy-Authorization: Basic nocolon\r\n\r\n") = none ∧
    processClientRequest b64toy kdftoy true dbtoy
      { received := utf8Encode (str "CONNECT t:443 HTTP/1.1\r\nProxy-Authorization: Basic nocolon\r\n\r\n"),
        connectOk := true, httpChunks := [], tunnelEvs := [] }
      = [Eff.closeClient] :=
  ⟨rfl, rfl⟩

theorem auth_failure_dispatch_witness :
    processClientRequest b64toy kdftoy true dbtoy
      { received := utf8Encode (str "GET / HTTP/1.1\r\n\r\n"),
        connectOk := true, httpChunks := [], tunnelEvs := [] }
      = [Eff.sendClient msg407, Eff.closeClient] ∧
    authenticateUser kdftoy dbtoy (str "bob") (str "pw") = some false :=
  ⟨(auth_failure_dispatch b64toy kdftoy dbtoy
      { received := utf8Encode (str "GET / HTTP/1.1\r\n\r\n"),
        connectOk := true, httpChunks := [], tunnelEvs := [] }
      (str "bob") (str "pw")).1 rfl,
   (auth_failure_dispatch b64toy kdftoy dbtoy
      { received := utf8Encode (str "GET / HTTP/1.1\r\n\r\n"),
        connectOk := true, httpChunks := [], tunnelEvs := [] }
      (str "bob") (str "pw")).2.2 rfl⟩

/-- The origin-bound bytes of one tunnel iteration are the client chunk. -/
theorem originBytes_tunnelStepEffs (e : TunnelEv) :
    originBytes (tunnelStepEffs e) = cData e := by
  rcases e with ⟨err, cc, sc⟩
  rcases cc with _ | d
  · rcases sc with _ | d'
    · rfl
    · rcases d' with _ | ⟨y, ys⟩ <;> simp [tunnelStepEffs, originBytes, cData]
  · rcases sc with _ | d'
    · rcases d with _ | ⟨x, xs⟩ <;> simp [tunnelStepEffs, originBytes, cData]
    · rcases d with _ | ⟨x, xs⟩ <;> rcases d' with _ | ⟨y, ys⟩ <;>
        simp [tunnelStepEffs, originBytes, cData]

/-- The client-bound bytes of one tunnel iteration are the origin chunk. -/
theorem clientBytes_tunnelStepEffs (e : TunnelEv) :
    clientBytes (tunnelStepEffs e) = sData e := by
  rcases e with ⟨err, cc, sc⟩
  rcases cc with _ | d
  · rcases sc with _ | d'
    · rfl
    · rcases d' with _ | ⟨y, ys⟩ <;> simp [tunnelStepEffs, clientBytes, sData]
  · rcases sc with _ | d'
    · rcases d with _ | ⟨x, xs⟩ <;> simp [tunnelStepEffs, clientBytes, sData]
    · rcases d with _ | ⟨x, xs⟩ <;> rcases d' with _ | ⟨y, ys⟩ <;>
        simp [tunnelStepEffs, clientBytes, sData]

theorem originBytes_append (a b : List Eff) :
    originBytes (a ++ b) = originBytes a ++ originBytes b := by
  simp [originBytes]

theorem clientBytes_append (a b : List Eff) :
    clientBytes (a ++ b) = clientBytes a ++ clientBytes b := by
  simp [clientBytes]

/-- The relay loop visits every live iteration and the final one. -/
theorem tunnelEffs_live (evs : List TunnelEv) (efin : TunnelEv)
    (hlive : ∀ e ∈ evs, tunnelAlive e = true) :
    tunnelEffs (evs ++ [efin]) = (evs.map tunnelStepEffs).flatten ++ tunnelStepEffs efin := by
  induction evs with
  | nil => simp [tunnelEffs]
  | cons e es ih =>
    have he : tunnelAlive e = true := hlive e (List.mem_cons_self e es)
    have hes : ∀ x ∈ es, tunnelAlive x = true := fun x hx => hlive x (List.mem_cons_of_mem e hx)
    simp only [List.cons_append, tunnelEffs, List.append_eq, he, if_true]
    rw [ih hes]
    simp

/-- Origin-bound bytes of a full relay run. -/
theorem originBytes_tunnelEffs (evs : List TunnelEv) (efin : TunnelEv)
    (hlive : ∀ e ∈ evs, tunnelAlive e = true) :
    originBytes (tunnelEffs (evs ++ [efin])) = ((evs ++ [efin]).map cData).flatten := by
  rw [tunnelEffs_live evs efin hlive, originBytes_append, originBytes_tunnelStepEffs]
  have : ∀ l : List TunnelEv, originBytes ((l.map tunnelStepEffs).flatten) = (l.map cData).flatten := by
    intro l
    induction l with
    | nil => rfl
    | cons x xs ih => simp [originBytes_append, originBytes_tunnelStepEffs, ih]
  simp [this]

/-- Client-bound bytes of a full relay run. -/
theorem clientBytes_tunnelEffs (evs : List TunnelEv) (efin : TunnelEv)
    (hlive : ∀ e ∈ evs, tunnelAlive e = true) :
    clientBytes (tunnelEffs (evs ++ [efin])) = ((evs ++ [efin]).map sData).flatten := by
  rw [tunnelEffs_live evs efin hlive, clientBytes_append, clientBytes_tunnelStepEffs]
  have : ∀ l : List TunnelEv, clientBytes ((l.map tunnelStepEffs).flatten) = (l.map sData).flatten := by
    intro l
    induction l with
    | nil => rfl
    | cons x xs ih => simp [clientBytes_append, clientBytes_tunnelStepEffs, ih]
  simp [this]

/-- Claim C2: for a CONNECT request whose parse and origin connection
succeed, the handler first writes exactly the bytes
`HTTP/1.1 200 Connection Established\r\n\r\n` to the client and then, for
any sequence of live relay iterations closed by a terminating one (an error
or a zero-byte read), the origin receives exactly the concatenation of the
client's chunks in FIFO order and the client exactly the 200 response
followed by the concatenation of the origin's chunks. -/
theorem connect_tunnel_exact (head host : Str) (port : Int)
    (evs : List TunnelEv) (efin : TunnelEv)
    (hparse : connectTarget head = some (host, port))
    (hlive : ∀ e ∈ evs, tunnelAlive e = true)
    (hfin : tunnelAlive efin = false) :
    handleHttps head true (evs ++ [efin])
      = Eff.connectOrigin host port :: Eff.sendClient connectMsg :: tunnelEffs (evs ++ [efin]) ∧
    connectMsg = [72, 84, 84, 80, 47, 49, 46, 49, 32, 50, 48, 48, 32, 67, 111, 110, 110, 101,
      99, 116, 105, 111, 110, 32, 69, 115, 116, 97, 98, 108, 105, 115, 104, 101, 100,
      13, 10, 13, 10] ∧
    originBytes (handleHttps head true (evs ++ [efin])) = ((evs ++ [efin]).map cData).flatten ∧
    clientBytes (handleHttps head true (evs ++ [efin]))
      = connectMsg ++ ((evs ++ [efin]).map sData).flatten := by
  have htrace : handleHttps head true (evs ++ [efin])
      = Eff.connectOrigin host port :: Eff.sendClient connectMsg :: tunnelEffs (evs ++ [efin]) := by
    simp [handleHttps, hparse]
  refine ⟨htrace, by decide, ?_, ?_⟩
  · rw [htrace]
    show originBytes ([Eff.connectOrigin host port, Eff.sendClient connectMsg]
      ++ tunnelEffs (evs ++ [efin])) = _
    rw [originBytes_append, originBytes_tunnelEffs evs efin hlive]
    rfl
  · rw [htrace]
    show clientBytes ([Eff.connectOrigin host port, Eff.sendClient connectMsg]
      ++ tunnelEffs (evs ++ [efin])) = _
    rw [clientBytes_append, clientBytes_tunnelEffs evs efin hlive]
    rfl

theorem connect_tunnel_exact_witness :
    handleHttps (str "CONNECT t:443 HTTP/1.1\r\n\r\n") true
        ([tev1] ++ [eofEv])
      = Eff.connectOrigin (str "t") 443 :: Eff.sendClient connectMsg ::
          tunnelEffs ([tev1] ++ [eofEv]) ∧
    connectMsg = [72, 84, 84, 80, 47, 49, 46, 49, 32, 50, 48, 48, 32, 67, 111, 110, 110, 101,
      99, 116, 105, 111, 110, 32, 69, 115, 116, 97, 98, 108, 105, 115, 104, 101, 100,
      13, 10, 13, 10] ∧
    originBytes (handleHttps (str "CONNECT t:443 HTTP/1.1\r\n\r\n") true
        ([tev1] ++ [eofEv]))
      = (([tev1] ++ [eofEv]).map cData).flatten ∧
    clientBytes (handleHttps (str "CONNECT t:443 HTTP/1.1\r\n\r\n") true
        ([tev1] ++ [eofEv]))
      = connectMsg ++ (([tev1] ++ [eofEv]).map sData).flatten :=
  connect_tunnel_exact (str "CONNECT t:443 HTTP/1.1\r\n\r\n") (str "t") 443
    [tev1] eofEv
    rfl (by decide) (by decide)

/-- Claim C3 (code bug witness): on a successful CONNECT whose tunnel
terminates by client EOF, the handler opened an origin socket but the trace
contains no `closeOrigin`; and when the origin connect fails, the client
socket is closed twice (`_handle_https`'s `except` and the dispatcher's
`finally`), contradicting close-exactly-once and origin-always-closed. -/
theorem socket_close_code_bug :
    (Eff.connectOrigin (str "t") 443 ∈ processClientRequest b64toy kdftoy false []
        { received := connBytes, connectOk := true, httpChunks := [], tunnelEvs := [eofEv] } ∧
      Eff.closeOrigin ∉ processClientRequest b64toy kdftoy false []
        { received := connBytes, connectOk := true, httpChunks := [], tunnelEvs := [eofEv] }) ∧
    (processClientRequest b64toy kdftoy false []
        { received := connBytes, connectOk := false, httpChunks := [], tunnelEvs := [] }).count
      Eff.closeClient = 2 := by
  refine ⟨⟨?_, ?_⟩, ?_⟩ <;> decide

/-- Each decoder step consumes at least one byte: the remainder is no longer
than the tail. -/
theorem utf8Step_length (b : Nat) (bs : List Nat) :
    (utf8Step b bs).2.length ≤ bs.length := by
  rcases bs with _ | ⟨b1, bs⟩
  · unfold utf8Step
    split_ifs <;> simp
  · rcases bs with _ | ⟨b2, bs⟩
    · unfold utf8Step
      split_ifs <;> simp <;> split_ifs <;> simp
    · rcases bs with _ | ⟨b3, bs⟩
      · unfold utf8Step
        split_ifs <;> simp <;> split_ifs <;> simp
      · unfold utf8Step
        split_ifs <;> simp <;> (try split_ifs) <;> simp <;> omega

/-- The fuel parameter is irrelevant once it covers the input length. -/
theorem utf8Fuel_eq (f : Nat) : ∀ l : List Nat, l.length ≤ f →
    utf8DecodeIgnoreFuel f l = utf8DecodeIgnore l := by
  induction f using Nat.strong_induction_on with
  | _ f ih =>
    intro l hl
    rcases l with _ | ⟨b, bs⟩
    · rcases f with _ | f <;> rfl
    · rcases f with _ | f
      · simp at hl
      · have hlen : (utf8Step b bs).2.length ≤ bs.length := utf8Step_length b bs
        have hbs : bs.length ≤ f := by simpa using hl
        show (utf8Step b bs).1 ++ utf8DecodeIgnoreFuel f (utf8Step b bs).2
          = utf8DecodeIgnore (b :: bs)
        rw [ih f (by omega) _ (by omega)]
        show _ = utf8DecodeIgnoreFuel (b :: bs).length (b :: bs)
        simp only [List.length_cons]
        show _ = (utf8Step b bs).1 ++ utf8DecodeIgnoreFuel bs.length (utf8Step b bs).2
        rw [ih bs.length (by omega) _ (by omega)]

/-- Unfolding: the decoder applied to a cons. -/
theorem utf8DecodeIgnore_cons (b : Nat) (bs : List Nat) :
    utf8DecodeIgnore (b :: bs) = (utf8Step b bs).1 ++ utf8DecodeIgnore (utf8Step b bs).2 := by
  show utf8DecodeIgnoreFuel (bs.length + 1) (b :: bs) = _
  show (utf8Step b bs).1 ++ utf8DecodeIgnoreFuel bs.length (utf8Step b bs).2 = _
  rw [utf8Fuel_eq bs.length _ (utf8Step_length b bs)]

/-- Unicode scalar values avoid the surrogate range and fit in 21 bits. -/
theorem char_toNat_valid (c : Char) :
    c.toNat < 55296 ∨ (57343 < c.toNat ∧ c.toNat < 1114112) := by
  have h := c.valid
  unfold UInt32.isValidChar at h
  unfold Nat.isValidChar at h
  exact h

/-- Round-trip of `Char.ofNat` on valid scalar values. -/
theorem char_toNat_ofNat (n : Nat) (h : n.isValidChar) : (Char.ofNat n).toNat = n := by
  simp only [Char.ofNat, h, dif_pos]
  rfl

/-- Decoder step on an ASCII byte. -/
theorem utf8Step_enc1 (n : Nat) (h : n < 128) (rest : List Nat) :
    utf8Step n rest = ([Char.ofNat n], rest) := by
  unfold utf8Step
  rw [if_pos h]

/-- Decoder step on an encoded 2-byte sequence. -/
theorem utf8Step_enc2 (n : Nat) (h1 : 128 ≤ n) (h2 : n < 2048) (rest : List Nat) :
    utf8Step (192 + n / 64) ((128 + n % 64) :: rest) = ([Char.ofNat n], rest) := by
  have e : (192 + n / 64 - 192) * 64 + (128 + n % 64 - 128) = n := by omega
  unfold utf8Step
  rw [if_neg (by omega), if_pos (by omega)]
  simp only []
  rw [if_pos (by omega), e]

/-- Decoder step on an encoded 3-byte sequence (surrogates excluded). -/
theorem utf8Step_enc3 (n : Nat) (h1 : 2048 ≤ n) (h2 : n < 65536)
    (hs : n < 55296 ∨ 57343 < n) (rest : List Nat) :
    utf8Step (224 + n / 4096) ((128 + n / 64 % 64) :: (128 + n % 64) :: rest)
      = ([Char.ofNat n], rest) := by
  have e : (224 + n / 4096 - 224) * 4096 + (128 + n / 64 % 64 - 128) * 64 + (128 + n % 64 - 128)
      = n := by omega
  unfold utf8Step
  rw [if_neg (by omega), if_neg (by omega), if_pos (by omega)]
  simp only [cont3lo, cont3hi]
  rw [if_pos ?cond, e]
  case cond =>
    constructor
    · constructor
      · split_ifs with h224 <;> omega
      · split_ifs with h237 <;> omega
    · omega

/-- Decoder step on an encoded 4-byte sequence. -/
theorem utf8Step_enc4 (n : Nat) (h1 : 65536 ≤ n) (h2 : n < 1114112) (rest : List Nat) :
    utf8Step (240 + n / 262144)
        ((128 + n / 4096 % 64) :: (128 + n / 64 % 64) :: (128 + n % 64) :: rest)
      = ([Char.ofNat n], rest) := by
  have e : (240 + n / 262144 - 240) * 262144 + (128 + n / 4096 % 64 - 128) * 4096
      + (128 + n / 64 % 64 - 128) * 64 + (128 + n % 64 - 128) = n := by omega
  unfold utf8Step
  rw [if_neg (by omega), if_neg (by omega), if_neg (by omega), if_pos (by omega)]
  simp only [cont4lo, cont4hi]
  rw [if_pos ?cond, e]
  case cond =>
    refine ⟨⟨?_, ?_⟩, by omega, by omega⟩
    · split_ifs with h240 <;> omega
    · split_ifs with h244 <;> omega

/-- Decoding inverts the single-character encoder. -/
theorem utf8Decode_encode1 (c : Char) (rest : List Nat) :
    utf8DecodeIgnore (utf8Encode1 c ++ rest) = c :: utf8DecodeIgnore rest := by
  have hv := char_toNat_valid c
  have hc : Char.ofNat c.toNat = c := Char.ofNat_toNat c
  unfold utf8Encode1
  by_cases h1 : c.toNat < 128
  · rw [if_pos h1]
    show utf8DecodeIgnore (c.toNat :: rest) = _
    rw [utf8DecodeIgnore_cons, utf8Step_enc1 _ h1, hc]
    rfl
  · by_cases h2 : c.toNat < 2048
    · rw [if_neg h1, if_pos h2]
      show utf8DecodeIgnore ((192 + c.toNat / 64) :: (128 + c.toNat % 64) :: rest) = _
      rw [utf8DecodeIgnore_cons, utf8Step_enc2 _ (by omega) h2, hc]
      rfl
    · by_cases h3 : c.toNat < 65536
      · rw [if_neg h1, if_neg h2, if_pos h3]
        show utf8DecodeIgnore
            ((224 + c.toNat / 4096) :: (128 + c.toNat / 64 % 64) :: (128 + c.toNat % 64) :: rest)
          = _
        rw [utf8DecodeIgnore_cons, utf8Step_enc3 _ (by omega) h3 (by omega), hc]
        rfl
      · rw [if_neg h1, if_neg h2, if_neg h3]
        show utf8DecodeIgnore ((240 + c.toNat / 262144) :: (128 + c.toNat / 4096 % 64)
            :: (128 + c.toNat / 64 % 64) :: (128 + c.toNat % 64) :: rest) = _
        rw [utf8DecodeIgnore_cons, utf8Step_enc4 _ (by omega) (by omega), hc]
        rfl

/-- Decoding inverts encoding: the model of `s.encode().decode()` is the
identity on Python strings. -/
theorem utf8_roundtrip (cs : List Char) : utf8DecodeIgnore (utf8Encode cs) = cs := by
  induction cs with
  | nil => rfl
  | cons c cs ih =>
    have : utf8Encode (c :: cs) = utf8Encode1 c ++ utf8Encode cs := by
      simp [utf8Encode]
    rw [this, utf8Decode_encode1, ih]

/-- On pure ASCII input the decode-then-encode pipeline of
`_process_client_request` and `_handle_http` is the identity on bytes. -/
theorem utf8Encode_decode_ascii (bs : List Nat) (h : ∀ b ∈ bs, b < 128) :
    utf8Encode (utf8DecodeIgnore bs) = bs := by
  induction bs with
  | nil => rfl
  | cons b bs ih =>
    have hb : b < 128 := h b (List.mem_cons_self b bs)
    have hval : (Char.ofNat b).toNat = b :=
      char_toNat_ofNat b (Or.inl (by omega))
    rw [utf8DecodeIgnore_cons, utf8Step_enc1 _ hb]
    show utf8Encode (Char.ofNat b :: utf8DecodeIgnore bs) = _
    have hcons : utf8Encode (Char.ofNat b :: utf8DecodeIgnore bs)
        = utf8Encode1 (Char.ofNat b) ++ utf8Encode (utf8DecodeIgnore bs) := by
      simp [utf8Encode]
    rw [hcons, ih (fun x hx => h x (List.mem_cons_of_mem b hx))]
    unfold utf8Encode1
    rw [hval, if_pos hb]
    rfl

/-- Claim C10: the dispatcher decodes the received bytes as UTF-8 with
undecodable bytes dropped, and the whole connection behaviour (routing,
authentication, forwarded head bytes) is a function of that decoding: the
trace equals the trace obtained when the received bytes are replaced by the
re-encoding of their lossy decoding, i.e. the proxy behaves as if the
non-UTF-8 bytes were absent. -/
theorem lossy_head_decode (b64 : Str → Option Str) (kdf : Str → List Nat → List Nat)
    (auth : Bool) (db : List (Str × Str)) (env : ConnEnv) :
    utf8DecodeIgnore (utf8Encode (utf8DecodeIgnore env.received))
      = utf8DecodeIgnore env.received ∧
    processClientRequest b64 kdf auth db env
      = processClientRequest b64 kdf auth db
          { received := utf8Encode (utf8DecodeIgnore env.received),
            connectOk := env.connectOk, httpChunks := env.httpChunks,
            tunnelEvs := env.tunnelEvs } := by
  refine ⟨utf8_roundtrip _, ?_⟩
  simp only [processClientRequest, utf8_roundtrip]

/-- Claim C5 (amended): in HTTP mode the head bytes written to the origin
are the UTF-8 re-encoding of the lossily decoded received bytes; for every
all-ASCII head this equals the received bytes exactly, so the head is
forwarded verbatim.  Non-ASCII bytes are dropped (see the counterexample). -/
theorem http_forward_ascii_verbatim (bs : List Nat) (server : Str) (port : Int)
    (chunks : List (List Nat))
    (hascii : ∀ b ∈ bs, b < 128)
    (hparse : parseHttpTarget (utf8DecodeIgnore bs) = some (server, port)) :
    handleHttp (utf8DecodeIgnore bs) true chunks
      = Eff.connectOrigin server port :: Eff.sendOrigin bs ::
          (httpRelay chunks ++ [Eff.closeOrigin]) ∧
    originBytes (handleHttp (utf8DecodeIgnore bs) true chunks) = bs := by
  have henc : utf8Encode (utf8DecodeIgnore bs) = bs := utf8Encode_decode_ascii bs hascii
  have htrace : handleHttp (utf8DecodeIgnore bs) true chunks
      = Eff.connectOrigin server port :: Eff.sendOrigin bs ::
          (httpRelay chunks ++ [Eff.closeOrigin]) := by
    simp [handleHttp, hparse, henc]
  refine ⟨htrace, ?_⟩
  rw [htrace]
  show originBytes ([Eff.connectOrigin server port, Eff.sendOrigin bs]
    ++ (httpRelay chunks ++ [Eff.closeOrigin])) = bs
  rw [originBytes_append]
  have hrelay : ∀ ds : List (List Nat), originBytes (httpRelay ds) = [] := by
    intro ds
    induction ds with
    | nil => rfl
    | cons d ds ih =>
      by_cases hd : d.length > 0
      · simp only [httpRelay, if_pos hd]
        show originBytes ([Eff.sendClient d] ++ httpRelay ds) = []
        rw [originBytes_append, ih]
        rfl
      · simp only [httpRelay, if_neg hd]
        rfl
  rw [originBytes_append, hrelay]
  simp [originBytes]

theorem http_forward_lossy_cx :
    processClientRequest b64toy kdftoy false []
      { received := utf8Encode (str "GET http://h/ HTTP/1.1\r\n\r\n") ++ [255],
        connectOk := true, httpChunks := [[]], tunnelEvs := [] }
      = [Eff.connectOrigin (str "h") 80,
         Eff.sendOrigin (utf8Encode (str "GET http://h/ HTTP/1.1\r\n\r\n")),
         Eff.closeOrigin, Eff.closeClient] ∧
    utf8Encode (str "GET http://h/ HTTP/1.1\r\n\r\n")
      ≠ utf8Encode (str "GET http://h/ HTTP/1.1\r\n\r\n") ++ [255] :=
  ⟨rfl, by decide⟩

theorem http_forward_ascii_verbatim_witness :
    handleHttp (utf8DecodeIgnore (utf8Encode (str "GET http://h/ HTTP/1.1\r\n\r\n"))) true [[5], []]
      = Eff.connectOrigin (str "h") 80
          :: Eff.sendOrigin (utf8Encode (str "GET http://h/ HTTP/1.1\r\n\r\n")) ::
          (httpRelay [[5], []] ++ [Eff.closeOrigin]) ∧
    originBytes (handleHttp (utf8DecodeIgnore (utf8Encode (str "GET http://h/ HTTP/1.1\r\n\r\n")))
        true [[5], []])
      = utf8Encode (str "GET http://h/ HTTP/1.1\r\n\r\n") :=
  http_forward_ascii_verbatim (utf8Encode (str "GET http://h/ HTTP/1.1\r\n\r\n"))
    (str "h") 80 [[5], []] (by decide) rfl

/-- A character that is not a decimal digit does not occur in an all-digit
string. -/
theorem not_mem_of_isDigit_all (l : Str) (hl : l.all Char.isDigit = true)
    (c : Char) (hc : c.isDigit = false) : c ∉ l := by
  intro hmem
  have := (List.all_eq_true.mp hl) c hmem
  rw [hc] at this
  exact Bool.false_ne_true this

/-- Decimal digits are not `int()`-whitespace. -/
theorem isPyWS_false_of_digit (c : Char) (h : c.isDigit = true) : isPyWS c = false := by
  unfold isPyWS
  by_contra hws
  simp only [Bool.not_eq_false, Bool.or_eq_true, decide_eq_true_eq] at hws
  rcases hws with ((((h1 | h2) | h3) | h4) | h5) | h6 <;> subst_eqs <;> simp_all

/-- Python strip is the identity on all-digit strings. -/
theorem pyStrip_digits (l : Str) (hl : l.all Char.isDigit = true) : pyStrip l = l := by
  have hdrop : ∀ m : Str, m.all Char.isDigit = true → m.dropWhile isPyWS = m := by
    intro m hm
    rcases m with _ | ⟨d, m⟩
    · rfl
    · have hd : d.isDigit = true := by
        have := List.all_eq_true.mp hm d (List.mem_cons_self d m)
        simpa using this
      simp [List.dropWhile_cons, isPyWS_false_of_digit d hd]
  have hrev : l.reverse.all Char.isDigit = true := by
    simp only [List.all_eq_true] at hl ⊢
    intro c hc
    exact hl c (List.mem_reverse.mp hc)
  unfold pyStrip
  rw [hdrop l hl, hdrop l.reverse hrev, List.reverse_reverse]

/-- Python `int()` on a nonempty digit string. -/
theorem pyInt_digits (l : Str) (hne : l ≠ []) (hl : l.all Char.isDigit = true) :
    pyInt l = some ((digitsVal l : Int)) := by
  have hstrip : pyStrip l = l := pyStrip_digits l hl
  rcases l with _ | ⟨d, rest⟩
  · exact absurd rfl hne
  · have hd : d.isDigit = true := by
      have := List.all_eq_true.mp hl d (List.mem_cons_self d rest)
      simpa using this
    have hminus : d ≠ '-' := by rintro rfl; simp at hd
    have hplus : d ≠ '+' := by rintro rfl; simp at hd
    unfold pyInt
    rw [hstrip]
    simp only [List.head?_cons, Option.some.injEq]
    rw [if_neg hminus, if_neg hplus, if_pos ⟨by simp, hl⟩]

/-- Python slice `s[:k]` of `a ++ b` at `k = len(a)` is `a`. -/
theorem pyTakeInt_length (a b : Str) : pyTakeInt (a.length : Int) (a ++ b) = a := by
  simp [pyTakeInt, List.take_left]

/-- Python slice `s[k+1:]` of `a ++ c :: b` at `k = len(a)` is `b`. -/
theorem pyDropInt_length_succ (a b : Str) (c : Char) :
    pyDropInt ((a.length : Int) + 1) (a ++ c :: b) = b := by
  have h1 : ¬((a.length : Int) + 1 < 0) := by omega
  have h2 : ((a.length : Int) + 1).toNat = (a ++ [c]).length := by
    simp
  have h3 : a ++ c :: b = (a ++ [c]) ++ b := by simp
  simp only [pyDropInt, if_neg h1, h2, h3, List.drop_left]

/-- Python slice `s[:-1]` drops the final character. -/
theorem pyTakeInt_neg1 (l : Str) : pyTakeInt (-1) l = l.take (l.length - 1) := by
  simp [pyTakeInt]

/-- Python `find("://")` locates the scheme separator of an `http://` URL at
index 4, whatever follows. -/
theorem findSub_http (rest : Str) :
    pyFindSub (str "://") (str "http://" ++ rest) = 4 := by
  show findSubAux (str "://") 0 ('h' :: 't' :: 't' :: 'p' :: ':' :: '/' :: '/' :: rest) = 4
  have hpre : (str "://").isPrefixOf (':' :: '/' :: '/' :: rest) = true := by
    show (':' :: '/' :: '/' :: []).isPrefixOf (':' :: '/' :: '/' :: rest) = true
    simp [List.isPrefixOf]
  simp only [findSubAux, List.isPrefixOf, hpre]
  norm_num [str]
  decide

/-- Dropping the 7-character `http://` prefix. -/
theorem pyDropInt_http (rest : Str) :
    pyDropInt ((4 : Int) + 3) (str "http://" ++ rest) = rest := by
  have h1 : ¬((4 : Int) + 3 < 0) := by omega
  have h2 : ((4 : Int) + 3).toNat = (str "http://").length := by rfl
  simp only [pyDropInt, if_neg h1, h2, List.drop_left]

/-- A URL without any colon has no scheme separator. -/
theorem findSub_noscheme (url : Str) (h : ':' ∉ url) :
    pyFindSub (str "://") url = -1 := by
  show findSubAux (':' :: str "//") 0 url = -1
  exact findSubAux_head_not_mem ':' (str "//") url h 0

/-- Reduction of `parseHttpTarget` on a well-formed first request line: the
second token is handed to `parseUrl`. -/
theorem parseHttpTarget_getsUrl (url : Str) (hnl : '\n' ∉ url) (hsp : ' ' ∉ url) :
    parseHttpTarget (str "GET " ++ url ++ str " HTTP/1.1\r\n\r\n") = parseUrl url := by
  have hshape : str "GET " ++ url ++ str " HTTP/1.1\r\n\r\n"
      = (str "GET" ++ ' ' :: (url ++ str " HTTP/1.1\r")) ++ '\n' :: str "\r\n" := by
    have h1 : str " HTTP/1.1\r\n\r\n" = str " HTTP/1.1\r" ++ '\n' :: str "\r\n" := rfl
    have h2 : str "GET " = str "GET" ++ [' '] := rfl
    rw [h1, h2]
    simp
  have hnlA : '\n' ∉ str "GET" ++ ' ' :: (url ++ str " HTTP/1.1\r") := by
    intro hmem
    simp only [List.mem_append, List.mem_cons] at hmem
    rcases hmem with h | h | h | h
    · revert h; decide
    · exact absurd h.symm (by decide)
    · exact hnl h
    · revert h; decide
  have hsplitNL : pySplitChar '\n' (str "GET " ++ url ++ str " HTTP/1.1\r\n\r\n")
      = (str "GET" ++ ' ' :: (url ++ str " HTTP/1.1\r")) :: pySplitChar '\n' (str "\r\n") := by
    rw [hshape]
    exact pySplitChar_append '\n' _ _ hnlA
  have hspG : ' ' ∉ str "GET" := by decide
  have hline : str "GET" ++ ' ' :: (url ++ str " HTTP/1.1\r")
      = str "GET" ++ ' ' :: (url ++ (' ' :: str "HTTP/1.1\r")) := by
    have : str " HTTP/1.1\r" = ' ' :: str "HTTP/1.1\r" := rfl
    rw [this]
  have hsplitSp : pySplitChar ' ' (str "GET" ++ ' ' :: (url ++ str " HTTP/1.1\r"))
      = str "GET" :: url :: pySplitChar ' ' (str "HTTP/1.1\r") := by
    rw [hline, pySplitChar_append ' ' _ _ hspG, pySplitChar_append ' ' _ _ hsp]
  simp only [parseHttpTarget, hsplitNL, List.headD_cons, hsplitSp]
  rfl

/-- Case `scheme://host/path`: authority extracted, default port 80. -/
theorem parseUrl_scheme_slash (host path : Str) (hc : ':' ∉ host) (hs : '/' ∉ host)
    (pc : ':' ∉ path) :
    parseUrl (str "http://" ++ (host ++ '/' :: path)) = some (host, 80) := by
  have h4 := findSub_http (host ++ '/' :: path)
  have hdrop := pyDropInt_http (host ++ '/' :: path)
  have hcolon : pyFindSub (str ":") (host ++ '/' :: path) = -1 := by
    apply pyFindSub_single_not_mem
    intro hmem
    rcases List.mem_append.mp hmem with h | h
    · exact hc h
    · rcases List.mem_cons.mp h with h | h
      · exact absurd h (by decide)
      · exact pc h
  have hslash : pyFindSub (str "/") (host ++ '/' :: path) = host.length :=
    pyFindSub_single_append '/' host path hs
  simp only [parseUrl, h4, hdrop]
  norm_num
  rw [hcolon, hslash]
  norm_num [pyTakeInt_length]

/-- Case `scheme://host:port/path`: explicit port parsed. -/
theorem parseUrl_scheme_port (host portS path : Str) (hc : ':' ∉ host) (hs : '/' ∉ host)
    (pne : portS ≠ []) (pdig : portS.all Char.isDigit = true) :
    parseUrl (str "http://" ++ (host ++ ':' :: (portS ++ '/' :: path)))
      = some (host, (digitsVal portS : Int)) := by
  have h4 := findSub_http (host ++ ':' :: (portS ++ '/' :: path))
  have hdrop := pyDropInt_http (host ++ ':' :: (portS ++ '/' :: path))
  have hcolon : pyFindSub (str ":") (host ++ ':' :: (portS ++ '/' :: path)) = host.length :=
    pyFindSub_single_append ':' host _ hc
  have hps : '/' ∉ portS := not_mem_of_isDigit_all portS pdig '/' (by decide)
  have hdrop1 : pyDropInt ((host.length : Int) + 1) (host ++ ':' :: (portS ++ '/' :: path))
      = portS ++ '/' :: path := pyDropInt_length_succ host _ ':'
  have hslashR : pyFindSub (str "/") (portS ++ '/' :: path) = portS.length :=
    pyFindSub_single_append '/' portS path hps
  have hint : pyInt portS = some ((digitsVal portS : Int)) := pyInt_digits portS pne pdig
  have hnon : ¬((host.length : Int) = -1) := by omega
  simp only [parseUrl, h4, hdrop]
  norm_num
  rw [hcolon]
  norm_num [hnon]
  rw [hdrop1, hslashR]
  norm_num [pyTakeInt_length, hint]

/-- Case `scheme://host` without a path: the final host character is lost. -/
theorem parseUrl_scheme_noslash (host : Str) (hc : ':' ∉ host) (hs : '/' ∉ host) :
    parseUrl (str "http://" ++ host) = some (host.take (host.length - 1), 80) := by
  have h4 := findSub_http host
  have hdrop := pyDropInt_http host
  have hcolon : pyFindSub (str ":") host = -1 := pyFindSub_single_not_mem ':' host hc
  have hslash : pyFindSub (str "/") host = -1 := pyFindSub_single_not_mem '/' host hs
  simp only [parseUrl, h4, hdrop]
  norm_num
  rw [hcolon, hslash]
  norm_num [pyTakeInt_neg1]

/-- Case without a scheme: the prefix up to the first `/` is the authority. -/
theorem parseUrl_noscheme (host path : Str) (hc : ':' ∉ host) (hs : '/' ∉ host)
    (pc : ':' ∉ path) :
    parseUrl (host ++ '/' :: path) = some (host, 80) := by
  have hnc : ':' ∉ host ++ '/' :: path := by
    intro hmem
    rcases List.mem_append.mp hmem with h | h
    · exact hc h
    · rcases List.mem_cons.mp h with h | h
      · exact absurd h (by decide)
      · exact pc h
  have h0 : pyFindSub (str "://") (host ++ '/' :: path) = -1 :=
    findSub_noscheme _ hnc
  have hcolon : pyFindSub (str ":") (host ++ '/' :: path) = -1 :=
    pyFindSub_single_not_mem ':' _ hnc
  have hslash : pyFindSub (str "/") (host ++ '/' :: path) = host.length :=
    pyFindSub_single_append '/' host path hs
  simp only [parseUrl, h0]
  norm_num
  rw [hcolon, hslash]
  norm_num [pyTakeInt_length]

/-- Claim C6 (amended): for non-CONNECT requests the parser extracts the
authority of `scheme://authority/path`, splitting an explicit `:port` and
defaulting to port 80, and treats a scheme-less target's prefix up to the
first `/` as the authority — whenever a `/` follows the authority (and the
path carries no `':'` in the portless cases).  With no path after the
authority, the last character of the host (or of the port) is dropped by
the `temp[:-1]` slice (see the counterexample). -/
theorem http_absolute_uri_parse (host path portS : Str)
    (hc : ':' ∉ host) (hs : '/' ∉ host) (hsp : ' ' ∉ host) (hnl : '\n' ∉ host)
    (pc : ':' ∉ path) (psp : ' ' ∉ path) (pnl : '\n' ∉ path)
    (pne : portS ≠ []) (pdig : portS.all Char.isDigit = true) :
    parseHttpTarget (str "GET " ++ (str "http://" ++ (host ++ '/' :: path))
        ++ str " HTTP/1.1\r\n\r\n") = some (host, 80) ∧
    parseHttpTarget (str "GET " ++ (str "http://" ++ (host ++ ':' :: (portS ++ '/' :: path)))
        ++ str " HTTP/1.1\r\n\r\n") = some (host, (digitsVal portS : Int)) ∧
    parseHttpTarget (str "GET " ++ (host ++ '/' :: path) ++ str " HTTP/1.1\r\n\r\n")
      = some (host, 80) ∧
    parseHttpTarget (str "GET " ++ (str "http://" ++ host) ++ str " HTTP/1.1\r\n\r\n")
      = some (host.take (host.length - 1), 80) := by
  have pdnl : '\n' ∉ portS := not_mem_of_isDigit_all portS pdig '\n' (by decide)
  have pdsp : ' ' ∉ portS := not_mem_of_isDigit_all portS pdig ' ' (by decide)
  have hnl1 : '\n' ∉ str "http://" ++ (host ++ '/' :: path) := by
    intro hmem
    simp only [List.mem_append, List.mem_cons] at hmem
    rcases hmem with h | h | h | h <;> first
      | (revert h; decide)
      | exact hnl h
      | exact pnl h
  have hsp1 : ' ' ∉ str "http://" ++ (host ++ '/' :: path) := by
    intro hmem
    simp only [List.mem_append, List.mem_cons] at hmem
    rcases hmem with h | h | h | h <;> first
      | (revert h; decide)
      | exact hsp h
      | exact psp h
  have hnl2 : '\n' ∉ str "http://" ++ (host ++ ':' :: (portS ++ '/' :: path)) := by
    intro hmem
    simp only [List.mem_append, List.mem_cons] at hmem
    rcases hmem with h | h | h | h | h | h <;> first
      | (revert h; decide)
      | exact hnl h
      | exact pdnl h
      | exact pnl h
  have hsp2 : ' ' ∉ str "http://" ++ (host ++ ':' :: (portS ++ '/' :: path)) := by
    intro hmem
    simp only [List.mem_append, List.mem_cons] at hmem
    rcases hmem with h | h | h | h | h | h <;> first
      | (revert h; decide)
      | exact hsp h
      | exact pdsp h
      | exact psp h
  have hnl3 : '\n' ∉ host ++ '/' :: path := by
    intro hmem
    simp only [List.mem_append, List.mem_cons] at hmem
    rcases hmem with h | h | h <;> first
      | (revert h; decide)
      | exact hnl h
      | exact pnl h
  have hsp3 : ' ' ∉ host ++ '/' :: path := by
    intro hmem
    simp only [List.mem_append, List.mem_cons] at hmem
    rcases hmem with h | h | h <;> first
      | (revert h; decide)
      | exact hsp h
      | exact psp h
  have hnl4 : '\n' ∉ str "http://" ++ host := by
    intro hmem
    rcases List.mem_append.mp hmem with h | h
    · revert h; decide
    · exact hnl h
  have hsp4 : ' ' ∉ str "http://" ++ host := by
    intro hmem
    rcases List.mem_append.mp hmem with h | h
    · revert h; decide
    · exact hsp h
  refine ⟨?_, ?_, ?_, ?_⟩
  · rw [parseHttpTarget_getsUrl _ hnl1 hsp1]
    exact parseUrl_scheme_slash host path hc hs pc
  · rw [parseHttpTarget_getsUrl _ hnl2 hsp2]
    exact parseUrl_scheme_port host portS path hc hs pne pdig
  · rw [parseHttpTarget_getsUrl _ hnl3 hsp3]
    exact parseUrl_noscheme host path hc hs pc
  · rw [parseHttpTarget_getsUrl _ hnl4 hsp4]
    exact parseUrl_scheme_noslash host hc hs

theorem http_absolute_uri_parse_cx :
    parseHttpTarget (str "GET http://example.test HTTP/1.1\r\nHost: example.test\r\n\r\n")
      = some (str "example.tes", 80) ∧
    str "example.tes" ≠ str "example.test" ∧
    parseHttpTarget (str "GET http://h:8080 HTTP/1.1\r\n\r\n") = some (str "h", 808) :=
  ⟨rfl, by decide, rfl⟩

theorem http_absolute_uri_parse_witness :
    parseHttpTarget (str "GET " ++ (str "http://" ++ (str "example.test" ++ '/' :: str "foo"))
        ++ str " HTTP/1.1\r\n\r\n") = some (str "example.test", 80) ∧
    parseHttpTarget (str "GET " ++ (str "http://" ++ (str "example.test"
        ++ ':' :: (str "8080" ++ '/' :: str "foo")))
        ++ str " HTTP/1.1\r\n\r\n") = some (str "example.test", (digitsVal (str "8080") : Int)) ∧
    parseHttpTarget (str "GET " ++ (str "example.test" ++ '/' :: str "foo")
        ++ str " HTTP/1.1\r\n\r\n") = some (str "example.test", 80) ∧
    parseHttpTarget (str "GET " ++ (str "http://" ++ str "example.test")
        ++ str " HTTP/1.1\r\n\r\n")
      = some ((str "example.test").take ((str "example.test").length - 1), 80) :=
  http_absolute_uri_parse (str "example.test") (str "foo") (str "8080")
    (by decide) (by decide) (by decide) (by decide)
    (by decide) (by decide) (by decide)
    (by decide) (by decide)
